import Mathlib

/-!
Verification development for the `reconstruct2stack` ingestion-and-geometry
pipeline (`src/reconstruct2stack/__init__.py`).

The Python code is shallowly embedded: floating-point coordinates become
rationals (`ℚ`), numpy arrays become lists, Python dicts become association
lists, and every operation that can raise becomes an `Except Err _` value.
Python exception classes are represented by the constructors of `Err`:
`ValueError("Must provide either points or x and y.")` (the spec calls this
`InvalidContourError`) becomes `Err.missingCoords`, a `KeyError` on a missing
dict key (the spec's `IngestError` for calibration fields) becomes
`Err.missingField k` / `Err.missingSlice z`, the numpy `IndexError` raised by
slicing a length-0 1-D array as 2-D becomes `Err.indexError`, and
`list.index` / `reshape` failures become `Err.valueError`.

The JSER document is modelled as an association list from integer slice index
to slice record; the `"<prefix>.<index>"` string-key mechanics and the single
`.ser` metadata entry are elided (they only affect how keys are spelled, and
`keys()` strips them back to the integer indices modelled here).  The cv2
polygon-fill primitive is external per the spec, so a rendered image is
modelled as the list of fill calls issued to it (`DrawCall`), an all-zero
image being the empty list.
-/

deriving instance DecidableEq for Except

set_option allowUnsafeReducibility true

set_option maxRecDepth 8192

attribute [semireducible] Rat.mul Rat.add Rat.div Rat.sub Rat.neg Rat.inv Rat.normalize Rat.blt

namespace R2S

/-- Exceptions raised by the embedded code, see the module docstring. -/
inductive Err where
  | missingCoords
  | indexError
  | missingField (k : String)
  | missingSlice (z : ℤ)
  | typeError
  | valueError
  | zeroDivision
  deriving DecidableEq, Repr

/-- Values storable in an embedded Python dict (`to_dict` output, kwargs). -/
inductive PyVal where
  | vnone
  | qs (l : List ℚ)
  | mat (rows : List (List ℚ))
  | vbool (b : Bool)
  | vstr (s : String)
  | vint (z : ℤ)
  | vstrs (l : List String)
  deriving DecidableEq, Repr

/-- The `Contour` value object.  `x` and `y` are derived views of `points`
(`self.x = self.points[:, 0]`; `self.y = self.points[:, 1]`), so only
`points` is stored; fields Python initializes to `None` are `Option`s. -/
structure Contour where
  points : List (ℚ × ℚ)
  color : Option (List ℚ)
  closed : Option Bool
  negative : Option Bool
  hidden : Option Bool
  name : Option String
  mode : Option ℤ
  tags : Option (List String)
  history : Option (List String)
  offset_xy : Option (ℚ × ℚ)
  deriving DecidableEq, Repr

/-- The `self.x` view: first column of the point matrix. -/
def Contour.x (c : Contour) : List ℚ := c.points.map Prod.fst

/-- The `self.y` view: second column of the point matrix. -/
def Contour.y (c : Contour) : List ℚ := c.points.map Prod.snd

/-- `Contour.__init__`.  `np.array(points)` on a nonempty list of pairs has
shape (N, 2); on an empty list it is 1-D, so `self.points[:, 0]` raises
`IndexError` — hence the emptiness checks.  `zip(x, y)` truncates to the
shorter input, as `List.zip` does. -/
def mkContour (points : Option (List (ℚ × ℚ))) (x y : Option (List ℚ))
    (color : Option (List ℚ)) (closed negative hidden : Option Bool)
    (name : Option String) (mode : Option ℤ)
    (tags history : Option (List String)) (offset_xy : Option (ℚ × ℚ)) :
    Except Err Contour :=
  match points with
  | some ps =>
      if ps.isEmpty then .error .indexError
      else .ok ⟨ps, color, closed, negative, hidden, name, mode, tags, history, offset_xy⟩
  | none =>
      match x, y with
      | some xs, some ys =>
          let ps := xs.zip ys
          if ps.isEmpty then .error .indexError
          else .ok ⟨ps, color, closed, negative, hidden, name, mode, tags, history, offset_xy⟩
      | _, _ => .error .missingCoords

/-- The field names `Contour.from_dict` reads from its dict argument. -/
def fromDictKeys : List String :=
  ["x", "y", "color", "closed", "negative", "hidden", "name", "mode", "tags", "history"]

/-- `Contour.to_dict`: the ten-key dict; note `offset_xy` is not included. -/
def toDict (c : Contour) : List (String × PyVal) :=
  [("x", .qs c.x), ("y", .qs c.y),
   ("color", c.color.elim .vnone .qs),
   ("closed", c.closed.elim .vnone .vbool),
   ("negative", c.negative.elim .vnone .vbool),
   ("hidden", c.hidden.elim .vnone .vbool),
   ("name", c.name.elim .vnone .vstr),
   ("mode", c.mode.elim .vnone .vint),
   ("tags", c.tags.elim .vnone .vstrs),
   ("history", c.history.elim .vnone .vstrs)]

/-- `d[k]` on a dict built by `{**d₁, **d₂, ...}` merges: the merge is
modelled as list append, so lookup takes the *last* binding of `k`
(later kwargs override earlier dict entries, as in Python). -/
def pyGet (d : List (String × PyVal)) (k : String) : Except Err PyVal :=
  match List.lookup k d.reverse with
  | some v => .ok v
  | none => .error (Err.missingField k)

/-- Decode a dict value destined for a `List ℚ`-or-`None` parameter. -/
def asOptQs : PyVal → Except Err (Option (List ℚ))
  | .vnone => .ok none
  | .qs l => .ok (some l)
  | _ => .error .typeError

/-- Decode a dict value destined for a `Bool`-or-`None` parameter. -/
def asOptBool : PyVal → Except Err (Option Bool)
  | .vnone => .ok none
  | .vbool b => .ok (some b)
  | _ => .error .typeError

/-- Decode a dict value destined for a `str`-or-`None` parameter. -/
def asOptStr : PyVal → Except Err (Option String)
  | .vnone => .ok none
  | .vstr s => .ok (some s)
  | _ => .error .typeError

/-- Decode a dict value destined for an `int`-or-`None` parameter. -/
def asOptInt : PyVal → Except Err (Option ℤ)
  | .vnone => .ok none
  | .vint z => .ok (some z)
  | _ => .error .typeError

/-- Decode a dict value destined for a `List str`-or-`None` parameter. -/
def asOptStrs : PyVal → Except Err (Option (List String))
  | .vnone => .ok none
  | .vstrs l => .ok (some l)
  | _ => .error .typeError

/-- `Contour.from_dict(d)`: reads exactly the ten `fromDictKeys` entries and
calls the constructor with them (`points` and `offset_xy` are left `None`);
any other key in `d` is ignored. -/
def fromDictAssoc (d : List (String × PyVal)) : Except Err Contour := do
  let vx ← pyGet d "x"
  let vy ← pyGet d "y"
  let vcolor ← pyGet d "color"
  let vclosed ← pyGet d "closed"
  let vnegative ← pyGet d "negative"
  let vhidden ← pyGet d "hidden"
  let vname ← pyGet d "name"
  let vmode ← pyGet d "mode"
  let vtags ← pyGet d "tags"
  let vhistory ← pyGet d "history"
  let x ← asOptQs vx
  let y ← asOptQs vy
  let color ← asOptQs vcolor
  let closed ← asOptBool vclosed
  let negative ← asOptBool vnegative
  let hidden ← asOptBool vhidden
  let name ← asOptStr vname
  let mode ← asOptInt vmode
  let tags ← asOptStrs vtags
  let history ← asOptStrs vhistory
  mkContour none x y color closed negative hidden name mode tags history none

/-- `Contour.copy() = Contour.from_dict(self.to_dict())`. -/
def Contour.copy (c : Contour) : Except Err Contour :=
  fromDictAssoc (toDict c)

/-- `Contour.with_updated(**kwargs) = Contour.from_dict({**self.to_dict(), **kwargs})`. -/
def Contour.withUpdated (c : Contour) (kwargs : List (String × PyVal)) :
    Except Err Contour :=
  fromDictAssoc (toDict c ++ kwargs)

/-- `Contour.with_mag(mag) = self.copy().with_updated(x=self.x * mag, y=self.y * mag)`. -/
def Contour.withMag (c : Contour) (mag : ℚ) : Except Err Contour := do
  let c1 ← c.copy
  c1.withUpdated [("x", .qs (c.x.map (· * mag))), ("y", .qs (c.y.map (· * mag)))]

/-- `np.array(tforms).reshape(3, 2)`: requires exactly 6 coefficients. -/
def reshape32 (t : List ℚ) : Except Err (List (List ℚ)) :=
  match t with
  | [a, b, c, d, e, f] => .ok [[a, b], [c, d], [e, f]]
  | _ => .error .valueError

/-- `np.matmul(points, M)` for an N×2 point matrix and a 2-row matrix `M`
(row i of the product is `pointᵢ.1 * M[0] + pointᵢ.2 * M[1]`). -/
def npMatmul2 (ps : List (ℚ × ℚ)) (M : List (List ℚ)) : List (List ℚ) :=
  ps.map (fun p =>
    match M with
    | r0 :: r1 :: _ => List.zipWith (fun u v => p.1 * u + p.2 * v) r0 r1
    | _ => [])

/-- `Contour.with_tforms(tforms) = self.copy().with_updated(points=np.matmul(self.points, np.array(tforms).reshape(3, 2).T))`. -/
def Contour.withTforms (c : Contour) (t : List ℚ) : Except Err Contour := do
  let c1 ← c.copy
  let m ← reshape32 t
  c1.withUpdated [("points", .mat (npMatmul2 c.points m.transpose))]

/-- Left-to-right effectful map over `Except`, as a Python list
comprehension builds its list (stops at the first raised exception). -/
def mapEx {α β : Type} (f : α → Except Err β) : List α → Except Err (List β)
  | [] => .ok []
  | a :: l => do
    let b ← f a
    let bs ← mapEx f l
    .ok (b :: bs)

/-- Left-to-right effectful fold over `Except`, as a Python `for` loop. -/
def foldEx {σ α : Type} (f : σ → α → Except Err σ) (init : σ) :
    List α → Except Err σ
  | [] => .ok init
  | a :: l => do
    let s ← f init a
    foldEx f s l

/-- A raw contour dict as it appears in a slice's `contours` groups
(the JSER format always carries all of these fields). -/
structure RawContour where
  x : List ℚ
  y : List ℚ
  color : List ℚ
  closed : Bool
  negative : Bool
  hidden : Bool
  mode : ℤ
  tags : List String
  history : List String
  deriving DecidableEq, Repr

/-- One per-slice record of the document: the name-keyed contour groups
(association list, insertion-ordered like a Python dict) plus the
calibration fields, `none` modelling an absent key. -/
structure SliceRec where
  contours : List (String × List RawContour)
  mag : Option ℚ
  tformsDefault : Option (List ℚ)
  deriving DecidableEq, Repr

/-- The JSER document: integer slice index → slice record, in document
order.  The `"<prefix>.<index>"` string keys and the `.ser` metadata entry
are elided (see the module docstring); `mag` may be absent, and
`tformsDefault = none` models a record where `["tforms"]["default"]`
raises `KeyError`. -/
structure JSERDoc where
  slices : List (ℤ × SliceRec)
  deriving DecidableEq, Repr

/-- `JSERIngester.keys()`: the integer slice indices, in document order. -/
def JSERDoc.keys (doc : JSERDoc) : List ℤ := doc.slices.map Prod.fst

/-- `self[key]`: dict lookup of a slice record, `KeyError` if absent. -/
def JSERDoc.getSlice (doc : JSERDoc) (z : ℤ) : Except Err SliceRec :=
  match List.lookup z doc.slices with
  | some sl => .ok sl
  | none => .error (Err.missingSlice z)

/-- The raw contour dict after `contour["name"] = name` has stamped the
group key onto it, ready for `Contour.from_dict`. -/
def rawToDict (name : String) (rc : RawContour) : List (String × PyVal) :=
  [("x", .qs rc.x), ("y", .qs rc.y), ("color", .qs rc.color),
   ("closed", .vbool rc.closed), ("negative", .vbool rc.negative),
   ("hidden", .vbool rc.hidden), ("mode", .vint rc.mode),
   ("tags", .vstrs rc.tags), ("history", .vstrs rc.history),
   ("name", .vstr name)]

/-- The flattening loop of `get_raw_contours_for_slice`: each group's
contours paired with the group's name, groups in dict order. -/
def flattenSlice (sl : SliceRec) : List (String × RawContour) :=
  sl.contours.flatMap (fun nc => nc.2.map (fun rc => (nc.1, rc)))

/-- `JSERIngester.get_raw_contours_for_slice(z)`: flatten the slice's
groups and run each stamped dict through `Contour.from_dict`. -/
def getRawContoursForSlice (doc : JSERDoc) (z : ℤ) : Except Err (List Contour) := do
  let sl ← doc.getSlice z
  mapEx (fun p => fromDictAssoc (rawToDict p.1 p.2)) (flattenSlice sl)

/-- Python `int()` on a rational: truncation toward zero. -/
def truncQ (q : ℚ) : ℤ := if q < 0 then ⌈q⌉ else ⌊q⌋

/-- `int()` of a color component, kept in `ℚ` for comparison with the
contour's stored components (Python's `1 == 1.0`). -/
def pyIntQ (q : ℚ) : ℚ := (truncQ q : ℚ)

/-- `list(int(f) for f in c)`: one filter color cast to integers. -/
def pyIntL (l : List ℚ) : List ℚ := l.map pyIntQ

/-- The comprehension filter `d.color in filter_by_colors` (against the
already int-cast filter list); a `None` color is in no filter list. -/
def colorKeep (filt : List (List ℚ)) (c : Contour) : Bool :=
  match c.color with
  | some l => decide (l ∈ filt.map pyIntL)
  | none => false

/-- `self[key]["mag"]`: `KeyError` when the record lacks the field. -/
def getMag (sl : SliceRec) : Except Err ℚ :=
  match sl.mag with
  | some m => .ok m
  | none => .error (Err.missingField "mag")

/-- `self[key]["tforms"]["default"]`: `KeyError` when absent. -/
def getTf (sl : SliceRec) : Except Err (List ℚ) :=
  match sl.tformsDefault with
  | some t => .ok t
  | none => .error (Err.missingField "tforms.default")

/-- `1.0 / mag`, raising `ZeroDivisionError` on a zero magnification. -/
def pyDivOne (m : ℚ) : Except Err ℚ :=
  if m = 0 then .error Err.zeroDivision else .ok (1 / m)

/-- The comprehension body of `contours`:
`d.with_mag(1.0 / self[key]["mag"]).with_tforms(self[key]["tforms"]["default"])`,
with Python's left-to-right evaluation of the lookups. -/
def calibBody (doc : JSERDoc) (z : ℤ) (d : Contour) : Except Err Contour := do
  let sl ← doc.getSlice z
  let mag ← getMag sl
  let inv ← pyDivOne mag
  let c1 ← d.withMag inv
  let tf ← getTf sl
  c1.withTforms tf

/-- The comprehension filter
`filter_by_colors is None or d.color in filter_by_colors`, against the
already int-cast filter list. -/
def keepByFilt (filt2 : Option (List (List ℚ))) (d : Contour) : Bool :=
  match filt2 with
  | none => true
  | some fs =>
      match d.color with
      | some l => decide (l ∈ fs)
      | none => false

/-- `JSERIngester.contours(key, filter_by_colors)`: raw contours of the
slice, filtered by the int-cast colors, then each passed through
`with_mag(1.0 / self[key]["mag"])` and `.with_tforms(self[key]["tforms"]["default"])`.
The calibration lookups happen inside the comprehension body, so they are
only evaluated (and can only raise) when some contour survives the filter. -/
def contours (doc : JSERDoc) (z : ℤ) (filt : Option (List (List ℚ))) :
    Except Err (List Contour) := do
  let filt2 := filt.map (List.map pyIntL)
  let raws ← getRawContoursForSlice doc z
  mapEx (calibBody doc z) (raws.filter (keepByFilt filt2))

/-- First-seen deduplication, as the `if c.color not in colors` /
`Counter`-key accumulation loops build their lists. -/
def firstDedup {α : Type} [DecidableEq α] (l : List α) : List α :=
  l.foldl (fun acc a => if a ∈ acc then acc else acc ++ [a]) []

/-- `JSERIngester.get_unique_colors_for_slice(z)`: raw contour colors in
first-seen order. -/
def uniqueColorsForSlice (doc : JSERDoc) (z : ℤ) :
    Except Err (List (Option (List ℚ))) := do
  let raws ← getRawContoursForSlice doc z
  .ok (firstDedup (raws.map Contour.color))

/-- `JSERIngester.count_names()`: the multiset of names of every calibrated
slice's contours, in scan order (the `Counter` is this list's frequency
map, its keys this list's first-seen dedup). -/
def countNames (doc : JSERDoc) : Except Err (List (Option String)) := do
  let lists ← mapEx (fun z => contours doc z none) doc.keys
  .ok (lists.flatten.map Contour.name)

/-- Code-point lexicographic `≤` on character lists, exactly Python's
string comparison. -/
def strLeList : List Char → List Char → Bool
  | [], _ => true
  | _ :: _, [] => false
  | a :: as, b :: bs =>
    if a.toNat < b.toNat then true
    else if b.toNat < a.toNat then false
    else strLeList as bs

/-- Python `a <= b` on strings: lexicographic by code point. -/
def pyStrLe (a b : String) : Bool := strLeList a.data b.data

/-- Descending lexicographic sort, as
`sorted(name_counts.items(), key=lambda x: x[0], reverse=True)` orders the
distinct names (a stable sort of pairs keyed by their distinct names is the
same as sorting the names). -/
def sortDesc (l : List String) : List String :=
  l.insertionSort (fun a b => pyStrLe b a = true)

/-- Extract a string where Python would need one (`TypeError` on `None`,
matching `sorted`'s refusal to compare `None` with `str`). -/
def reqStr (o : Option String) : Except Err String :=
  match o with
  | some s => .ok s
  | none => .error Err.typeError

/-- The `sorted_name_list` catalog built by `jser_to_image_stack`
(lines 315–317): `count_names()`, take the distinct names, sort them
descending; comparing a `None` name raises `TypeError`. -/
def catalogOf (doc : JSERDoc) : Except Err (List String) := do
  let ns ← countNames doc
  let strs ← mapEx reqStr (firstDedup ns)
  .ok (sortDesc strs)

/-- `"loc" in s.lower()` (ASCII case folding, as the data uses). -/
def containsLoc (s : String) : Bool :=
  decide (List.IsInfix "loc".data (s.data.map Char.toLower))

/-- One call to the external polygon-fill primitive
(`cv2.drawContours(img, pts, -1, label, cv2.FILLED)`): the fill label and
the int-truncated polygon vertices.  A rendered image is the list of such
calls; the freshly allocated all-zero canvas is the empty list. -/
structure DrawCall where
  label : ℕ
  pts : List (ℤ × ℤ)
  deriving DecidableEq, Repr

/-- `lst.index(s)`: first index, `ValueError` when absent. -/
def pyIndex (l : List String) (s : String) : Except Err ℕ :=
  if s ∈ l then .ok (l.indexOf s) else .error .valueError

/-- A color value where Python would iterate one (`TypeError` on `None`). -/
def reqColor (o : Option (List ℚ)) : Except Err (List ℚ) :=
  match o with
  | some l => .ok l
  | none => .error Err.typeError

/-- One step of the `"loc"`-name filtering comprehension
(`c.name.lower()` raises on a `None` name). -/
def locStep (acc : List Contour) (c : Contour) : Except Err (List Contour) := do
  let n ← reqStr c.name
  .ok (if containsLoc n then acc else acc ++ [c])

/-- One step of the rendering loop: look the label up *first*
(`sorted_name_list.index(con.name)`), then skip contours with fewer than 3
points, otherwise issue the fill call. -/
def drawStep (sortedNames : List String) (im : List DrawCall) (c : Contour) :
    Except Err (List DrawCall) := do
  let n ← reqStr c.name
  let label ← pyIndex sortedNames n
  if c.points.length < 3 then .ok im
  else .ok (im ++ [⟨label, c.points.map (fun p => (truncQ p.1, truncQ p.2))⟩])

/-- The body of `plot_contours`' per-color loop: re-fetch the calibrated
contours filtered to this color, drop `"loc"` names, `continue` when none
remain, otherwise render and record the mask under the color's key. -/
def colorStep (doc : JSERDoc) (z : ℤ) (sortedNames : List String)
    (imgs : List (List ℚ × List DrawCall)) (colOpt : Option (List ℚ)) :
    Except Err (List (List ℚ × List DrawCall)) := do
  let col ← reqColor colOpt
  let cs ← contours doc z (some [col])
  let cs2 ← foldEx locStep [] cs
  if cs2.isEmpty then .ok imgs
  else do
    let img ← foldEx (drawStep sortedNames) [] cs2
    .ok (imgs ++ [(col, img)])

/-- `plot_contours(z, seg, image_size_xy, sorted_name_list)`: per distinct
raw color of the slice, run `colorStep`, keying each produced image by its
color (the code's key is the underscore-join of the components' `str()`s,
which is injective in the component list, so the list itself stands for
it). -/
def plotContours (doc : JSERDoc) (z : ℤ) (sortedNames : List String) :
    Except Err (List (List ℚ × List DrawCall)) := do
  let colors ← uniqueColorsForSlice doc z
  foldEx (colorStep doc z sortedNames) [] colors

/-- `jser_to_image_stack` minus the external PNG writer: build the catalog
once, then render every slice index (skipping those outside the optional
restriction), pairing each slice with its color-keyed masks. -/
def jserToImageStack (doc : JSERDoc) (zs : Option (List ℤ)) :
    Except Err (List (ℤ × List (List ℚ × List DrawCall))) := do
  let cat ← catalogOf doc
  foldEx (fun out z =>
      match zs with
      | some restrict =>
          if z ∈ restrict then do
            let imgs ← plotContours doc z cat
            Except.ok (out ++ [(z, imgs)])
          else Except.ok out
      | none => do
          let imgs ← plotContours doc z cat
          Except.ok (out ++ [(z, imgs)]))
    [] doc.keys

/-- A contour unchanged except that `offset_xy` is dropped — the value the
`to_dict`/`from_dict` round-trip actually produces, since `to_dict` omits
`offset_xy` and `from_dict` never passes it. -/
def stripOffset (c : Contour) : Contour := { c with offset_xy := none }

/-- The identity-equivalent 6-coefficient transform of the spec's scenarios. -/
def id6 : List ℚ := [1, 0, 0, 1, 0, 0]

/-- A small concrete contour (one point, metadata set) for counterexamples. -/
def cEx : Contour :=
  ⟨[(1, 2)], some [3, 0, 0], some true, some false, some false, some "A",
   some 7, some [], some [], none⟩

/-- `cEx` with an `offset_xy` set, to watch what the copy methods do to it. -/
def cOff : Contour := { cEx with offset_xy := some (1, 2) }

/-- A triangular raw contour (3 points), color `[1,0,0]`. -/
def rcTri : RawContour :=
  ⟨[0, 5, 0], [0, 0, 5], [1, 0, 0], true, false, false, 11, [], []⟩

/-- A degenerate raw contour (2 points), color `[1,0,0]`. -/
def rcSeg : RawContour :=
  ⟨[0, 1], [0, 1], [1, 0, 0], true, false, false, 11, [], []⟩

/-- One-slice document: a single triangle named `"A"`, `mag = 2`. -/
def docA : JSERDoc := ⟨[(0, ⟨[("A", [rcTri])], some 2, some id6⟩)]⟩

/-- One-slice document whose slice has an *empty* contour mapping and lacks
both `mag` and `tforms.default`. -/
def docC5 : JSERDoc := ⟨[(0, ⟨[], none, none⟩)]⟩

/-- One-slice document with a contour but no `mag` field. -/
def docC5b : JSERDoc := ⟨[(0, ⟨[("A", [rcTri])], none, some id6⟩)]⟩

/-- One-slice document with a contour, a `mag`, but no `tforms.default`. -/
def docC5c : JSERDoc := ⟨[(0, ⟨[("A", [rcTri])], some 2, none⟩)]⟩

/-- One-slice document whose only contour is a 2-point degenerate polygon. -/
def docC7 : JSERDoc := ⟨[(0, ⟨[("A", [rcSeg])], some 1, some id6⟩)]⟩

/-- One-slice document with a structure `"A"` and a location marker `"Loc1"`,
both triangles of the same color. -/
def docB : JSERDoc :=
  ⟨[(0, ⟨[("A", [rcTri]), ("Loc1", [rcTri])], some 1, some id6⟩)]⟩

/-- Document with three structures named `"B"`, `"A"`, `"C"` (in that
arrival order), each on the single slice. -/
def docBAC : JSERDoc :=
  ⟨[(0, ⟨[("B", [rcTri]), ("A", [rcTri]), ("C", [rcTri])], some 1, some id6⟩)]⟩

/-- `docBAC` with the groups arriving in a different order. -/
def docCAB : JSERDoc :=
  ⟨[(0, ⟨[("C", [rcTri]), ("A", [rcTri]), ("B", [rcTri])], some 1, some id6⟩)]⟩

/-- One-slice document whose only contour is named `"Loc1"`. -/
def docLoc : JSERDoc := ⟨[(0, ⟨[("Loc1", [rcTri])], some 1, some id6⟩)]⟩

/-! ### Pure mirrors of the effectful pipeline, used to state results -/

/-- The contour `from_dict` builds from a stamped raw dict (when the
coordinate zip is nonempty). -/
def rawMk (n : String) (rc : RawContour) : Contour :=
  ⟨rc.x.zip rc.y, some rc.color, some rc.closed, some rc.negative,
   some rc.hidden, some n, some rc.mode, some rc.tags, some rc.history, none⟩

/-- The flat raw-contour list of a slice, as values. -/
def rawsOf (sl : SliceRec) : List Contour :=
  (flattenSlice sl).map (fun p => rawMk p.1 p.2)

/-- The value `with_mag(1/m)` followed by `with_tforms(...)` produces:
coordinates scaled by `1/m`, metadata kept, `offset_xy` dropped
(`with_tforms` leaves the coordinates alone). -/
def calibScale (m : ℚ) (c : Contour) : Contour :=
  ⟨c.points.map (fun p => (p.1 * (1 / m), p.2 * (1 / m))), c.color, c.closed,
   c.negative, c.hidden, c.name, c.mode, c.tags, c.history, none⟩

/-- The render-time name filter: keep contours whose name does not contain
`"loc"` case-insensitively (a `None` name would raise before this point). -/
def notLoc (c : Contour) : Bool :=
  match c.name with
  | some n => !containsLoc n
  | none => true

/-- A contour's name as the string Python would use (`None` unreachable in
the rendering pipeline, where every contour is stamped with its group key). -/
def nameD (c : Contour) : String := c.name.getD ""

/-- The fill call `plot_contours` issues for one contour. -/
def mkDraw (ns : List String) (c : Contour) : DrawCall :=
  ⟨ns.indexOf (nameD c), c.points.map (fun p => (truncQ p.1, truncQ p.2))⟩

/-- The fill calls a color group's survivors produce: degenerate contours
(fewer than 3 points) are skipped, the rest drawn in order. -/
def drawsFor (ns : List String) (cs : List Contour) : List DrawCall :=
  (cs.filter (fun c => decide (3 ≤ c.points.length))).map (mkDraw ns)

/-- The calibrated, color-matched, non-`"loc"` contours of a slice for one
raw color `col` (the color filter compares against the int-cast of `col`). -/
def survivorsFor (sl : SliceRec) (m : ℚ) (col : List ℚ) : List Contour :=
  (((rawsOf sl).filter (colorKeep [col])).map (calibScale m)).filter notLoc

/-- The mask dictionary `plot_contours` builds, per unique raw color in
first-seen order: a color with no surviving contours yields no entry,
otherwise its survivors' fill calls. -/
def masksFor (sl : SliceRec) (m : ℚ) (ns : List String) :
    List (List ℚ × List DrawCall) :=
  (firstDedup ((rawsOf sl).map Contour.color)).filterMap (fun co =>
    match co with
    | some col =>
        if survivorsFor sl m col = [] then none
        else some (col, drawsFor ns (survivorsFor sl m col))
    | none => none)

/-! ### Basic lemmas about the embedded dict machinery -/

theorem okBind {α β : Type} (a : α) (f : α → Except Err β) :
    (Except.ok a >>= f) = f a := rfl

theorem errBind {α β : Type} (e : Err) (f : α → Except Err β) :
    ((Except.error e : Except Err α) >>= f) = Except.error e := rfl

theorem asOptQs_elim (o : Option (List ℚ)) :
    asOptQs (o.elim .vnone .qs) = .ok o := by cases o <;> rfl

theorem asOptBool_elim (o : Option Bool) :
    asOptBool (o.elim .vnone .vbool) = .ok o := by cases o <;> rfl

theorem asOptStr_elim (o : Option String) :
    asOptStr (o.elim .vnone .vstr) = .ok o := by cases o <;> rfl

theorem asOptInt_elim (o : Option ℤ) :
    asOptInt (o.elim .vnone .vint) = .ok o := by cases o <;> rfl

theorem asOptStrs_elim (o : Option (List String)) :
    asOptStrs (o.elim .vnone .vstrs) = .ok o := by cases o <;> rfl

theorem lookup_append_of_fresh {β : Type} (k : String)
    (l1 l2 : List (String × β)) (h : ∀ kv ∈ l1, kv.1 ≠ k) :
    List.lookup k (l1 ++ l2) = List.lookup k l2 := by
  induction l1 with
  | nil => rfl
  | cons kv l ih =>
      have hne : kv.1 ≠ k := h kv (by simp)
      have : (k == kv.1) = false := by
        simp only [beq_eq_false_iff_ne]
        exact fun he => hne he.symm
      simp only [List.cons_append, List.lookup, this]
      exact ih (fun kv' hm => h kv' (by simp [hm]))

theorem pyGet_append_fresh (d kwargs : List (String × PyVal)) (k : String)
    (h : ∀ kv ∈ kwargs, kv.1 ≠ k) :
    pyGet (d ++ kwargs) k = pyGet d k := by
  unfold pyGet
  rw [List.reverse_append, lookup_append_of_fresh k kwargs.reverse d.reverse
    (by intro kv hm; exact h kv (List.mem_reverse.mp hm))]

theorem fromDictAssoc_congr (d1 d2 : List (String × PyVal))
    (h : ∀ k ∈ fromDictKeys, pyGet d1 k = pyGet d2 k) :
    fromDictAssoc d1 = fromDictAssoc d2 := by
  have hx := h "x" (by decide)
  have hy := h "y" (by decide)
  have hcolor := h "color" (by decide)
  have hclosed := h "closed" (by decide)
  have hnegative := h "negative" (by decide)
  have hhidden := h "hidden" (by decide)
  have hname := h "name" (by decide)
  have hmode := h "mode" (by decide)
  have htags := h "tags" (by decide)
  have hhistory := h "history" (by decide)
  simp only [fromDictAssoc, hx, hy, hcolor, hclosed, hnegative, hhidden,
    hname, hmode, htags, hhistory]

theorem withUpdated_fresh (c : Contour) (kwargs : List (String × PyVal))
    (h : ∀ kv ∈ kwargs, kv.1 ∉ fromDictKeys) :
    c.withUpdated kwargs = c.copy := by
  unfold Contour.withUpdated Contour.copy
  refine fromDictAssoc_congr _ _ (fun k hk => ?_)
  exact pyGet_append_fresh (toDict c) kwargs k
    (fun kv hm he => h kv hm (he ▸ hk))

theorem zip_x_y (c : Contour) : c.x.zip c.y = c.points := by
  unfold Contour.x Contour.y
  rw [List.zip_map']
  simp

theorem pyGet_toDict_x (c : Contour) : pyGet (toDict c) "x" = .ok (.qs c.x) := rfl

theorem pyGet_toDict_y (c : Contour) : pyGet (toDict c) "y" = .ok (.qs c.y) := rfl

theorem pyGet_toDict_color (c : Contour) :
    pyGet (toDict c) "color" = .ok (c.color.elim .vnone .qs) := rfl

theorem pyGet_toDict_closed (c : Contour) :
    pyGet (toDict c) "closed" = .ok (c.closed.elim .vnone .vbool) := rfl

theorem pyGet_toDict_negative (c : Contour) :
    pyGet (toDict c) "negative" = .ok (c.negative.elim .vnone .vbool) := rfl

theorem pyGet_toDict_hidden (c : Contour) :
    pyGet (toDict c) "hidden" = .ok (c.hidden.elim .vnone .vbool) := rfl

theorem pyGet_toDict_name (c : Contour) :
    pyGet (toDict c) "name" = .ok (c.name.elim .vnone .vstr) := rfl

theorem pyGet_toDict_mode (c : Contour) :
    pyGet (toDict c) "mode" = .ok (c.mode.elim .vnone .vint) := rfl

theorem pyGet_toDict_tags (c : Contour) :
    pyGet (toDict c) "tags" = .ok (c.tags.elim .vnone .vstrs) := rfl

theorem pyGet_toDict_history (c : Contour) :
    pyGet (toDict c) "history" = .ok (c.history.elim .vnone .vstrs) := rfl

theorem asOptQs_qs (l : List ℚ) : asOptQs (.qs l) = .ok (some l) := rfl

theorem mkContour_some_some (xs ys : List ℚ) (color : Option (List ℚ))
    (closed negative hidden : Option Bool) (name : Option String)
    (mode : Option ℤ) (tags history : Option (List String))
    (offset_xy : Option (ℚ × ℚ)) (hne : xs.zip ys ≠ []) :
    mkContour none (some xs) (some ys) color closed negative hidden name mode
        tags history offset_xy =
      .ok ⟨xs.zip ys, color, closed, negative, hidden, name, mode, tags,
        history, offset_xy⟩ := by
  unfold mkContour
  simp [List.isEmpty_iff, hne]

theorem copy_spec (c : Contour) (h : c.points ≠ []) :
    c.copy = .ok (stripOffset c) := by
  unfold Contour.copy
  simp only [fromDictAssoc, pyGet_toDict_x, pyGet_toDict_y, pyGet_toDict_color,
    pyGet_toDict_closed, pyGet_toDict_negative, pyGet_toDict_hidden,
    pyGet_toDict_name, pyGet_toDict_mode, pyGet_toDict_tags,
    pyGet_toDict_history, okBind, asOptQs_qs, asOptQs_elim, asOptBool_elim,
    asOptStr_elim, asOptInt_elim, asOptStrs_elim]
  rw [mkContour_some_some _ _ _ _ _ _ _ _ _ _ _ (by rw [zip_x_y]; exact h),
    zip_x_y]
  rfl

theorem pyGet_updXY_x (c : Contour) (xs ys : List ℚ) :
    pyGet (toDict c ++ [("x", .qs xs), ("y", .qs ys)]) "x" = .ok (.qs xs) := rfl

theorem pyGet_updXY_y (c : Contour) (xs ys : List ℚ) :
    pyGet (toDict c ++ [("x", .qs xs), ("y", .qs ys)]) "y" = .ok (.qs ys) := rfl

theorem pyGet_updXY_color (c : Contour) (xs ys : List ℚ) :
    pyGet (toDict c ++ [("x", .qs xs), ("y", .qs ys)]) "color" =
      .ok (c.color.elim .vnone .qs) := rfl

theorem pyGet_updXY_closed (c : Contour) (xs ys : List ℚ) :
    pyGet (toDict c ++ [("x", .qs xs), ("y", .qs ys)]) "closed" =
      .ok (c.closed.elim .vnone .vbool) := rfl

theorem pyGet_updXY_negative (c : Contour) (xs ys : List ℚ) :
    pyGet (toDict c ++ [("x", .qs xs), ("y", .qs ys)]) "negative" =
      .ok (c.negative.elim .vnone .vbool) := rfl

theorem pyGet_updXY_hidden (c : Contour) (xs ys : List ℚ) :
    pyGet (toDict c ++ [("x", .qs xs), ("y", .qs ys)]) "hidden" =
      .ok (c.hidden.elim .vnone .vbool) := rfl

theorem pyGet_updXY_name (c : Contour) (xs ys : List ℚ) :
    pyGet (toDict c ++ [("x", .qs xs), ("y", .qs ys)]) "name" =
      .ok (c.name.elim .vnone .vstr) := rfl

theorem pyGet_updXY_mode (c : Contour) (xs ys : List ℚ) :
    pyGet (toDict c ++ [("x", .qs xs), ("y", .qs ys)]) "mode" =
      .ok (c.mode.elim .vnone .vint) := rfl

theorem pyGet_updXY_tags (c : Contour) (xs ys : List ℚ) :
    pyGet (toDict c ++ [("x", .qs xs), ("y", .qs ys)]) "tags" =
      .ok (c.tags.elim .vnone .vstrs) := rfl

theorem pyGet_updXY_history (c : Contour) (xs ys : List ℚ) :
    pyGet (toDict c ++ [("x", .qs xs), ("y", .qs ys)]) "history" =
      .ok (c.history.elim .vnone .vstrs) := rfl

theorem withUpdated_xy (c : Contour) (xs ys : List ℚ) :
    c.withUpdated [("x", .qs xs), ("y", .qs ys)] =
      mkContour none (some xs) (some ys) c.color c.closed c.negative c.hidden
        c.name c.mode c.tags c.history none := by
  unfold Contour.withUpdated
  simp only [fromDictAssoc, pyGet_updXY_x, pyGet_updXY_y, pyGet_updXY_color,
    pyGet_updXY_closed, pyGet_updXY_negative, pyGet_updXY_hidden,
    pyGet_updXY_name, pyGet_updXY_mode, pyGet_updXY_tags, pyGet_updXY_history,
    okBind, asOptQs_qs, asOptQs_elim, asOptBool_elim, asOptStr_elim,
    asOptInt_elim, asOptStrs_elim]

theorem zip_scaled (c : Contour) (m : ℚ) :
    (c.x.map (· * m)).zip (c.y.map (· * m)) =
      c.points.map (fun p => (p.1 * m, p.2 * m)) := by
  unfold Contour.x Contour.y
  rw [List.map_map, List.map_map, List.zip_map']
  rfl

theorem withMag_spec (c : Contour) (m : ℚ) (h : c.points ≠ []) :
    c.withMag m = .ok ⟨c.points.map (fun p => (p.1 * m, p.2 * m)), c.color,
      c.closed, c.negative, c.hidden, c.name, c.mode, c.tags, c.history,
      none⟩ := by
  unfold Contour.withMag
  rw [copy_spec c h, okBind, withUpdated_xy]
  cases hp : c.points with
  | nil => exact absurd hp h
  | cons p l =>
      simp [mkContour, stripOffset, zip_scaled, hp]

theorem withTforms_spec (c : Contour) (t : List ℚ) (h : c.points ≠ [])
    (h6 : t.length = 6) : c.withTforms t = .ok (stripOffset c) := by
  rcases t with _ | ⟨a, _ | ⟨b, _ | ⟨u, _ | ⟨d, _ | ⟨e, _ | ⟨f, _ | ⟨g, r⟩⟩⟩⟩⟩⟩⟩ <;>
    simp only [List.length] at h6 <;> try omega
  unfold Contour.withTforms
  rw [copy_spec c h, okBind]
  have hres : reshape32 [a, b, u, d, e, f] = .ok [[a, b], [u, d], [e, f]] := rfl
  rw [hres, okBind,
    withUpdated_fresh _ _ (by
      intro kv hm
      simp at hm
      subst hm
      show "points" ∉ fromDictKeys
      decide),
    copy_spec (stripOffset c) (by simpa [stripOffset] using h)]
  simp [stripOffset]

/-! ### Lemmas about the ingester -/

theorem mapEx_ok {α β : Type} (f : α → Except Err β) (g : α → β)
    (l : List α) (h : ∀ a ∈ l, f a = .ok (g a)) :
    mapEx f l = .ok (l.map g) := by
  induction l with
  | nil => rfl
  | cons a l ih =>
      simp only [mapEx, h a (by simp), okBind,
        ih (fun a ha => h a (by simp [ha])), List.map_cons]

theorem fromDict_rawToDict (n : String) (rc : RawContour) :
    fromDictAssoc (rawToDict n rc) =
      mkContour none (some rc.x) (some rc.y) (some rc.color)
        (some rc.closed) (some rc.negative) (some rc.hidden) (some n)
        (some rc.mode) (some rc.tags) (some rc.history) none := rfl

theorem fromDict_rawToDict_ok (n : String) (rc : RawContour)
    (hne : rc.x.zip rc.y ≠ []) :
    fromDictAssoc (rawToDict n rc) = .ok (rawMk n rc) := by
  rw [fromDict_rawToDict,
    mkContour_some_some _ _ _ _ _ _ _ _ _ _ _ hne]
  rfl

theorem getRaw_ok (doc : JSERDoc) (z : ℤ) (sl : SliceRec)
    (h1 : doc.getSlice z = .ok sl)
    (h2 : ∀ p ∈ flattenSlice sl, p.2.x.zip p.2.y ≠ []) :
    getRawContoursForSlice doc z = .ok (rawsOf sl) := by
  unfold getRawContoursForSlice
  rw [h1, okBind]
  exact mapEx_ok _ _ _ (fun p hp => fromDict_rawToDict_ok p.1 p.2 (h2 p hp))

theorem rawsOf_points_ne (sl : SliceRec)
    (h2 : ∀ p ∈ flattenSlice sl, p.2.x.zip p.2.y ≠ []) :
    ∀ c ∈ rawsOf sl, c.points ≠ [] := by
  intro c hc
  obtain ⟨p, hp, rfl⟩ := List.mem_map.mp hc
  exact h2 p hp

theorem rawsOf_name_some (sl : SliceRec) :
    ∀ c ∈ rawsOf sl, c.name = some (nameD c) := by
  intro c hc
  obtain ⟨p, _, rfl⟩ := List.mem_map.mp hc
  rfl

theorem rawsOf_color_some (sl : SliceRec) :
    ∀ c ∈ rawsOf sl, ∃ l, c.color = some l := by
  intro c hc
  obtain ⟨p, _, rfl⟩ := List.mem_map.mp hc
  exact ⟨p.2.color, rfl⟩

/-- The comprehension body of `contours` on a nonempty-points contour:
`with_mag(1/m)` then `with_tforms(tf)` lands exactly on `calibScale m`. -/
theorem calib_body_ok (c : Contour) (m : ℚ) (tf : List ℚ)
    (h : c.points ≠ []) (h6 : tf.length = 6) :
    (c.withMag (1 / m) >>= fun c1 => c1.withTforms tf) =
      .ok (calibScale m c) := by
  rw [withMag_spec c (1 / m) h, okBind,
    withTforms_spec _ tf (by simp [h]) h6]
  rfl

theorem getMag_some (sl : SliceRec) (m : ℚ) (h3 : sl.mag = some m) :
    getMag sl = .ok m := by
  unfold getMag
  rw [h3]

theorem getTf_some (sl : SliceRec) (tf : List ℚ)
    (h5 : sl.tformsDefault = some tf) : getTf sl = .ok tf := by
  unfold getTf
  rw [h5]

theorem pyDivOne_ne (m : ℚ) (h4 : m ≠ 0) : pyDivOne m = .ok (1 / m) := by
  unfold pyDivOne
  rw [if_neg h4]

theorem calibBody_ok (doc : JSERDoc) (z : ℤ) (sl : SliceRec) (m : ℚ)
    (tf : List ℚ) (h1 : doc.getSlice z = .ok sl) (h3 : sl.mag = some m)
    (h4 : m ≠ 0) (h5 : sl.tformsDefault = some tf) (h6 : tf.length = 6)
    (c : Contour) (hp : c.points ≠ []) :
    calibBody doc z c = .ok (calibScale m c) := by
  unfold calibBody
  rw [h1, okBind, getMag_some sl m h3, okBind, pyDivOne_ne m h4, okBind,
    withMag_spec c (1 / m) hp, okBind, getTf_some sl tf h5, okBind,
    withTforms_spec _ tf (by simp [hp]) h6]
  rfl

theorem contours_none_spec (doc : JSERDoc) (z : ℤ) (sl : SliceRec) (m : ℚ)
    (tf : List ℚ) (h1 : doc.getSlice z = .ok sl)
    (h2 : ∀ p ∈ flattenSlice sl, p.2.x.zip p.2.y ≠ [])
    (h3 : sl.mag = some m) (h4 : m ≠ 0) (h5 : sl.tformsDefault = some tf)
    (h6 : tf.length = 6) :
    contours doc z none = .ok ((rawsOf sl).map (calibScale m)) := by
  unfold contours
  rw [getRaw_ok doc z sl h1 h2, okBind]
  have hkeep : keepByFilt (Option.map (List.map pyIntL) none) =
      fun _ : Contour => true := rfl
  rw [hkeep, List.filter_true]
  exact mapEx_ok _ _ _ (fun c hc =>
    calibBody_ok doc z sl m tf h1 h3 h4 h5 h6 c (rawsOf_points_ne sl h2 c hc))

theorem contours_some_spec (doc : JSERDoc) (z : ℤ) (sl : SliceRec) (m : ℚ)
    (tf : List ℚ) (h1 : doc.getSlice z = .ok sl)
    (h2 : ∀ p ∈ flattenSlice sl, p.2.x.zip p.2.y ≠ [])
    (h3 : sl.mag = some m) (h4 : m ≠ 0) (h5 : sl.tformsDefault = some tf)
    (h6 : tf.length = 6) (filt : List (List ℚ)) :
    contours doc z (some filt) =
      .ok (((rawsOf sl).filter (colorKeep filt)).map (calibScale m)) := by
  unfold contours
  rw [getRaw_ok doc z sl h1 h2, okBind]
  have hkeep : keepByFilt (Option.map (List.map pyIntL) (some filt)) =
      colorKeep filt := by
    funext d
    rfl
  rw [hkeep]
  exact mapEx_ok _ _ _ (fun c hc =>
    calibBody_ok doc z sl m tf h1 h3 h4 h5 h6 c
      (rawsOf_points_ne sl h2 c (List.mem_of_mem_filter hc)))

theorem getMag_none (sl : SliceRec) (h : sl.mag = none) :
    getMag sl = .error (Err.missingField "mag") := by
  unfold getMag
  rw [h]

theorem getTf_none (sl : SliceRec) (h : sl.tformsDefault = none) :
    getTf sl = .error (Err.missingField "tforms.default") := by
  unfold getTf
  rw [h]

theorem calibBody_err_mag (doc : JSERDoc) (z : ℤ) (sl : SliceRec)
    (h1 : doc.getSlice z = .ok sl) (hmag : sl.mag = none) (d : Contour) :
    calibBody doc z d = .error (Err.missingField "mag") := by
  unfold calibBody
  rw [h1, okBind, getMag_none sl hmag]
  rfl

theorem calibBody_err_tf (doc : JSERDoc) (z : ℤ) (sl : SliceRec) (m : ℚ)
    (h1 : doc.getSlice z = .ok sl) (h3 : sl.mag = some m) (h4 : m ≠ 0)
    (htf : sl.tformsDefault = none) (d : Contour) (hp : d.points ≠ []) :
    calibBody doc z d = .error (Err.missingField "tforms.default") := by
  unfold calibBody
  rw [h1, okBind, getMag_some sl m h3, okBind, pyDivOne_ne m h4, okBind,
    withMag_spec d (1 / m) hp, okBind, getTf_none sl htf]
  rfl

theorem mapEx_cons_err {α β : Type} (f : α → Except Err β) (a : α)
    (l : List α) (e : Err) (h : f a = .error e) :
    mapEx f (a :: l) = .error e := by
  simp only [mapEx, h, errBind]

/-! ### Claim theorems: the Contour transform methods -/

/-- C1: the claim says `with_tforms(coeffs)` returns a contour whose point
matrix is `points · M` with `M = reshape(3, 2)(coeffs)`.  On the contour
`cEx` with points `[(1, 2)]` and `coeffs = [2, 0, 0, 2, 0, 0]` the code
instead (i) multiplies by the *transpose* of the reshaped matrix, producing
the 1×3 row `[2, 4, 0]`, and (ii) discards even that product, because the
`points=` keyword is not among the keys `from_dict` reads: the returned
contour is `cEx` itself, its points unchanged. -/
theorem C1_with_tforms_discards_product :
    reshape32 [2, 0, 0, 2, 0, 0] = .ok [[2, 0], [0, 2], [0, 0]] ∧
    npMatmul2 cEx.points (([[2, 0], [0, 2], [0, 0]] : List (List ℚ)).transpose)
      = [[2, 4, 0]] ∧
    cEx.withTforms [2, 0, 0, 2, 0, 0] = .ok cEx ∧
    cEx.points = [(1, 2)] := by decide

/-- C2 counterexample: at `mag = 2 ≠ 1` and the non-diagonal 6-coefficient
matrix `[1, 2, 3, 4, 5, 6]`, scaling-then-transform and
transform-then-scaling produce the *same* contour (points `[(2, 4)]`),
contradicting the claim that the two orders must differ. -/
theorem C2_counterexample_orders_agree :
    (cEx.withMag 2 >>= fun c1 => c1.withTforms [1, 2, 3, 4, 5, 6]) =
      (cEx.withTforms [1, 2, 3, 4, 5, 6] >>= fun c1 => c1.withMag 2) ∧
    (cEx.withMag 2 >>= fun c1 => c1.withTforms [1, 2, 3, 4, 5, 6]) =
      .ok ⟨[(2, 4)], some [3, 0, 0], some true, some false, some false,
        some "A", some 7, some [], some [], none⟩ := by decide

/-- C2 (amended): for *every* contour with at least one point, every
magnification and every 6-coefficient transform, applying `with_mag` then
`with_tforms` equals applying them in the reverse order — `with_tforms`
leaves the coordinates unchanged (and even the intended linear map would
commute with scalar scaling), so the order cannot be observed. -/
theorem C2_amended_orders_always_agree (c : Contour) (m : ℚ) (t : List ℚ)
    (h : c.points ≠ []) (h6 : t.length = 6) :
    (c.withMag m >>= fun c1 => c1.withTforms t) =
      (c.withTforms t >>= fun c1 => c1.withMag m) := by
  rw [withMag_spec c m h, okBind, withTforms_spec c t h h6, okBind,
    withTforms_spec _ t (by simp [h]) h6,
    withMag_spec (stripOffset c) m (by simpa [stripOffset] using h)]
  simp [stripOffset]

/-- C2 amended, witnessed at `cEx`, `mag = 2`, `tforms = [1,2,3,4,5,6]`. -/
theorem C2_amended_witness :
    (cEx.withMag 2 >>= fun c1 => c1.withTforms [1, 2, 3, 4, 5, 6]) =
      (cEx.withTforms [1, 2, 3, 4, 5, 6] >>= fun c1 => c1.withMag 2) :=
  C2_amended_orders_always_agree cEx 2 [1, 2, 3, 4, 5, 6] (by decide) (by decide)

/-- C3: `with_updated` silently ignores keyword arguments whose names are
not among the ten fields `from_dict` reads (it degenerates to `copy`); in
particular `with_updated(points=p)` keeps the original points, and hence
`with_tforms` returns a contour whose coordinates are unchanged. -/
theorem C3_with_updated_ignores_unknown_keys :
    (∀ (c : Contour) (kwargs : List (String × PyVal)),
      (∀ kv ∈ kwargs, kv.1 ∉ fromDictKeys) → c.withUpdated kwargs = c.copy) ∧
    (∀ (c : Contour) (v : PyVal), c.points ≠ [] →
      ∃ c2, c.withUpdated [("points", v)] = .ok c2 ∧ c2.points = c.points) ∧
    (∀ (c : Contour) (t : List ℚ), c.points ≠ [] → t.length = 6 →
      ∃ c2, c.withTforms t = .ok c2 ∧ c2.points = c.points) := by
  refine ⟨fun c kwargs h => withUpdated_fresh c kwargs h, ?_, ?_⟩
  · intro c v h
    rw [withUpdated_fresh c _ (by
        intro kv hm
        simp at hm
        subst hm
        show "points" ∉ fromDictKeys
        decide),
      copy_spec c h]
    exact ⟨stripOffset c, rfl, rfl⟩
  · intro c t h h6
    rw [withTforms_spec c t h h6]
    exact ⟨stripOffset c, rfl, rfl⟩

/-- C3, witnessed at `cEx`: a `points=` keyword is ignored and
`with_tforms` keeps the points `[(1, 2)]`. -/
theorem C3_witness :
    cEx.withUpdated [("points", PyVal.vint 5)] = cEx.copy ∧
    (∃ c2, cEx.withTforms [1, 2, 3, 4, 5, 6] = .ok c2 ∧
      c2.points = cEx.points) :=
  ⟨C3_with_updated_ignores_unknown_keys.1 cEx [("points", PyVal.vint 5)]
      (by decide),
    C3_with_updated_ignores_unknown_keys.2.2 cEx [1, 2, 3, 4, 5, 6]
      (by decide) (by decide)⟩

/-- C6 counterexample: supplying an explicit — but empty — point sequence
does not construct a contour: `np.array([])` is one-dimensional, so the
`[:, 0]` slice raises `IndexError`, refuting "construction succeeds when
points is supplied". -/
theorem C6_counterexample_empty_points :
    mkContour (some []) none none none none none none none none none none
      none = .error .indexError := by decide

/-- C6 (amended): constructing with neither `points` nor both `x` and `y`
fails with the missing-coordinates `ValueError` (the spec's
`InvalidContourError`); construction succeeds when a *nonempty* point
sequence is supplied, or when both `x` and `y` are supplied and their zip
is nonempty — an empty coordinate sequence instead raises the numpy
`IndexError` of `C6_counterexample_empty_points`. -/
theorem C6_amended_construction (points : Option (List (ℚ × ℚ)))
    (x y : Option (List ℚ)) (color : Option (List ℚ))
    (closed negative hidden : Option Bool) (name : Option String)
    (mode : Option ℤ) (tags history : Option (List String))
    (offset_xy : Option (ℚ × ℚ)) :
    (points = none → x = none ∨ y = none →
      mkContour points x y color closed negative hidden name mode tags
        history offset_xy = .error .missingCoords) ∧
    (∀ ps, points = some ps → ps ≠ [] →
      mkContour points x y color closed negative hidden name mode tags
        history offset_xy = .ok ⟨ps, color, closed, negative, hidden, name,
          mode, tags, history, offset_xy⟩) ∧
    (∀ xs ys, points = none → x = some xs → y = some ys → xs.zip ys ≠ [] →
      mkContour points x y color closed negative hidden name mode tags
        history offset_xy = .ok ⟨xs.zip ys, color, closed, negative, hidden,
          name, mode, tags, history, offset_xy⟩) := by
  refine ⟨?_, ?_, ?_⟩
  · intro hp hxy
    subst hp
    rcases hxy with h | h
    · subst h; cases y <;> rfl
    · subst h; cases x <;> rfl
  · intro ps hp hne
    subst hp
    unfold mkContour
    simp [List.isEmpty_iff, hne]
  · intro xs ys hp hx hy hne
    subst hp; subst hx; subst hy
    exact mkContour_some_some xs ys color closed negative hidden name mode
      tags history offset_xy hne

/-- C6 amended, witnessed: missing coordinates raise, a nonempty explicit
point list constructs, and nonempty `x`/`y` lists construct. -/
theorem C6_amended_witness :
    mkContour none none (some [1]) none none none none none none none none
        none = .error .missingCoords ∧
    mkContour (some [(1, 2)]) none none none none none none none none none
        none none = .ok ⟨[(1, 2)], none, none, none, none, none, none, none,
          none, none⟩ ∧
    mkContour none (some [1]) (some [2]) none none none none none none none
        none none = .ok ⟨[(1, 2)], none, none, none, none, none, none, none,
          none, none⟩ :=
  ⟨(C6_amended_construction none none (some [1]) none none none none none
      none none none none).1 rfl (Or.inl rfl),
   (C6_amended_construction (some [(1, 2)]) none none none none none none
      none none none none none).2.1 [(1, 2)] rfl (by decide),
   (C6_amended_construction none (some [1]) (some [2]) none none none none
      none none none none none).2.2 [1] [2] rfl rfl rfl (by decide)⟩

/-- C9 counterexample: `cOff` carries `offset_xy = (1, 2)`, but
`with_mag(2)` returns a contour whose `offset_xy` is `None` — the
`to_dict`/`from_dict` round-trip inside `copy`/`with_updated` does not
carry `offset_xy`, so it is *not* copied unchanged. -/
theorem C9_counterexample_offset_dropped :
    cOff.offset_xy = some (1, 2) ∧
    Except.map Contour.offset_xy (cOff.withMag 2) = .ok none := by decide

/-- C9 (amended): `with_mag(factor)` multiplies every coordinate by the
factor and copies `color`, `closed`, `negative`, `hidden`, `name`, `mode`,
`tags` and `history` unchanged, but resets `offset_xy` to `None` (the
round-trip through `to_dict` drops it). -/
theorem C9_amended_with_mag_fields (c : Contour) (m : ℚ)
    (h : c.points ≠ []) :
    ∃ c2, c.withMag m = .ok c2 ∧
      c2.points = c.points.map (fun p => (p.1 * m, p.2 * m)) ∧
      c2.color = c.color ∧ c2.name = c.name ∧ c2.closed = c.closed ∧
      c2.negative = c.negative ∧ c2.hidden = c.hidden ∧ c2.mode = c.mode ∧
      c2.tags = c.tags ∧ c2.history = c.history ∧ c2.offset_xy = none :=
  ⟨_, withMag_spec c m h, rfl, rfl, rfl, rfl, rfl, rfl, rfl, rfl, rfl, rfl⟩

/-- C9 amended, witnessed at `cOff` with factor 2. -/
theorem C9_amended_witness :
    ∃ c2, cOff.withMag 2 = .ok c2 ∧
      c2.points = cOff.points.map (fun p => (p.1 * 2, p.2 * 2)) ∧
      c2.color = cOff.color ∧ c2.name = cOff.name ∧ c2.closed = cOff.closed ∧
      c2.negative = cOff.negative ∧ c2.hidden = cOff.hidden ∧
      c2.mode = cOff.mode ∧ c2.tags = cOff.tags ∧
      c2.history = cOff.history ∧ c2.offset_xy = none :=
  C9_amended_with_mag_fields cOff 2 (by decide)

/-! ### Lemmas about the rasterizer -/

theorem foldEx_locStep (cs : List Contour)
    (hnm : ∀ c ∈ cs, ∃ n, c.name = some n) (acc : List Contour) :
    foldEx locStep acc cs = .ok (acc ++ cs.filter notLoc) := by
  induction cs generalizing acc with
  | nil => simp [foldEx]
  | cons c cs ih =>
      obtain ⟨n, hn⟩ := hnm c (by simp)
      have hstep : locStep acc c =
          .ok (if containsLoc n then acc else acc ++ [c]) := by
        unfold locStep
        rw [hn]
        rfl
      have hrest := ih (fun c hc => hnm c (by simp [hc]))
      have hnl : notLoc c = !containsLoc n := by
        unfold notLoc
        rw [hn]
      simp only [foldEx, hstep, okBind, hrest, List.filter_cons, hnl]
      cases hcl : containsLoc n
      · simp
      · simp

theorem foldEx_drawStep (ns : List String) (cs : List Contour)
    (hnm : ∀ c ∈ cs, ∃ n, c.name = some n ∧ n ∈ ns) (im0 : List DrawCall) :
    foldEx (drawStep ns) im0 cs = .ok (im0 ++ drawsFor ns cs) := by
  induction cs generalizing im0 with
  | nil => simp [foldEx, drawsFor]
  | cons c cs ih =>
      obtain ⟨n, hn, hmem⟩ := hnm c (by simp)
      have hnameD : nameD c = n := by
        unfold nameD
        rw [hn]
        rfl
      have hidx : pyIndex ns n = .ok (ns.indexOf n) := by
        unfold pyIndex
        rw [if_pos hmem]
      have hstep : drawStep ns im0 c =
          .ok (if c.points.length < 3 then im0
            else im0 ++ [mkDraw ns c]) := by
        unfold drawStep
        rw [hn]
        show (pyIndex ns n >>= fun label =>
          if c.points.length < 3 then Except.ok im0
          else Except.ok (im0 ++
            [⟨label, c.points.map (fun p => (truncQ p.1, truncQ p.2))⟩])) = _
        rw [hidx, okBind]
        unfold mkDraw
        rw [hnameD]
        split <;> rfl
      have hrest := fun im => ih (fun c hc => hnm c (by simp [hc])) im
      by_cases h3 : c.points.length < 3
      · have hd : drawsFor ns (c :: cs) = drawsFor ns cs := by
          unfold drawsFor
          rw [List.filter_cons_of_neg (by simpa using h3)]
        simp only [foldEx, hstep, if_pos h3, okBind, hrest, hd]
      · have hd : drawsFor ns (c :: cs) = mkDraw ns c :: drawsFor ns cs := by
          unfold drawsFor
          rw [List.filter_cons_of_pos (by simpa using Nat.le_of_not_lt h3)]
          rfl
        show (drawStep ns im0 c >>= fun s => foldEx (drawStep ns) s cs) = _
        rw [hstep, if_neg h3, okBind, hrest, hd]
        rw [List.append_assoc]
        rfl

theorem uniqueColors_ok (doc : JSERDoc) (z : ℤ) (sl : SliceRec)
    (h1 : doc.getSlice z = .ok sl)
    (h2 : ∀ p ∈ flattenSlice sl, p.2.x.zip p.2.y ≠ []) :
    uniqueColorsForSlice doc z =
      .ok (firstDedup ((rawsOf sl).map Contour.color)) := by
  unfold uniqueColorsForSlice
  rw [getRaw_ok doc z sl h1 h2, okBind]

theorem firstDedup_sub {α : Type} [DecidableEq α] (l : List α) :
    ∀ x ∈ firstDedup l, x ∈ l := by
  have key : ∀ (l : List α) (acc : List α) (x : α),
      x ∈ l.foldl (fun acc a => if a ∈ acc then acc else acc ++ [a]) acc →
      x ∈ acc ∨ x ∈ l := by
    intro l
    induction l with
    | nil => intro acc x hx; exact Or.inl hx
    | cons a l ih =>
        intro acc x hx
        rcases ih _ x hx with h | h
        · dsimp only at h
          by_cases hmem : a ∈ acc
          · rw [if_pos hmem] at h
            exact Or.inl h
          · rw [if_neg hmem] at h
            rcases List.mem_append.mp h with h | h
            · exact Or.inl h
            · simp at h
              exact Or.inr (by simp [h])
        · exact Or.inr (by simp [h])
  intro x hx
  rcases key l [] x hx with h | h
  · simp at h
  · exact h

theorem mem_survivorsFor (sl : SliceRec) (m : ℚ) (col : List ℚ)
    (c : Contour) (hc : c ∈ survivorsFor sl m col) :
    ∃ c0 ∈ rawsOf sl, c = calibScale m c0 ∧ notLoc c = true := by
  unfold survivorsFor at hc
  have h1 := List.mem_filter.mp hc
  obtain ⟨c0, hc0, rfl⟩ := List.mem_map.mp h1.1
  exact ⟨c0, List.mem_of_mem_filter hc0, rfl, h1.2⟩

theorem calibScale_name (m : ℚ) (c : Contour) :
    (calibScale m c).name = c.name := rfl

theorem rawsOf_nameD_mem (sl : SliceRec) (ns : List String)
    (hn : ∀ p ∈ flattenSlice sl, p.1 ∈ ns) :
    ∀ c ∈ rawsOf sl, nameD c ∈ ns := by
  intro c hc
  obtain ⟨p, hp, rfl⟩ := List.mem_map.mp hc
  exact hn p hp

theorem colorStep_ok (doc : JSERDoc) (z : ℤ) (sl : SliceRec) (m : ℚ)
    (tf : List ℚ) (ns : List String) (h1 : doc.getSlice z = .ok sl)
    (h2 : ∀ p ∈ flattenSlice sl, p.2.x.zip p.2.y ≠ [])
    (h3 : sl.mag = some m) (h4 : m ≠ 0) (h5 : sl.tformsDefault = some tf)
    (h6 : tf.length = 6) (hn : ∀ p ∈ flattenSlice sl, p.1 ∈ ns)
    (imgs : List (List ℚ × List DrawCall)) (col : List ℚ) :
    colorStep doc z ns imgs (some col) =
      .ok (imgs ++ (if survivorsFor sl m col = [] then []
        else [(col, drawsFor ns (survivorsFor sl m col))])) := by
  unfold colorStep
  have hreq : reqColor (some col) = .ok col := rfl
  rw [hreq, okBind, contours_some_spec doc z sl m tf h1 h2 h3 h4 h5 h6 [col],
    okBind]
  have hnames : ∀ c ∈ ((rawsOf sl).filter (colorKeep [col])).map
      (calibScale m), ∃ n, c.name = some n := by
    intro c hc
    obtain ⟨c0, hc0, rfl⟩ := List.mem_map.mp hc
    rw [calibScale_name]
    obtain ⟨p, _, rfl⟩ := List.mem_map.mp (List.mem_of_mem_filter hc0)
    exact ⟨p.1, rfl⟩
  rw [foldEx_locStep _ hnames [], okBind, List.nil_append]
  have hsurv : (((rawsOf sl).filter (colorKeep [col])).map
      (calibScale m)).filter notLoc = survivorsFor sl m col := rfl
  rw [hsurv]
  by_cases hs : survivorsFor sl m col = []
  · rw [hs]
    simp
  · rw [if_neg hs]
    have hbool : (survivorsFor sl m col).isEmpty = false := by
      cases hsv : survivorsFor sl m col with
      | nil => exact absurd hsv hs
      | cons a l => rfl
    rw [if_neg (show ¬((survivorsFor sl m col).isEmpty = true) by
      simp [hbool])]
    show (foldEx (drawStep ns) [] (survivorsFor sl m col) >>= fun img =>
      Except.ok (imgs ++ [(col, img)])) = _
    have hnames2 : ∀ c ∈ survivorsFor sl m col,
        ∃ n, c.name = some n ∧ n ∈ ns := by
      intro c hc
      obtain ⟨c0, hc0, rfl, _⟩ := mem_survivorsFor sl m col c hc
      rw [calibScale_name]
      have := rawsOf_name_some sl c0 hc0
      exact ⟨nameD c0, this, rawsOf_nameD_mem sl ns hn c0 hc0⟩
    rw [foldEx_drawStep ns _ hnames2 [], okBind, List.nil_append]

theorem foldEx_colorSteps (doc : JSERDoc) (z : ℤ) (sl : SliceRec) (m : ℚ)
    (tf : List ℚ) (ns : List String) (h1 : doc.getSlice z = .ok sl)
    (h2 : ∀ p ∈ flattenSlice sl, p.2.x.zip p.2.y ≠ [])
    (h3 : sl.mag = some m) (h4 : m ≠ 0) (h5 : sl.tformsDefault = some tf)
    (h6 : tf.length = 6) (hn : ∀ p ∈ flattenSlice sl, p.1 ∈ ns) :
    ∀ (cols : List (Option (List ℚ)))
      (hsome : ∀ co ∈ cols, ∃ col, co = some col)
      (imgs : List (List ℚ × List DrawCall)),
      foldEx (colorStep doc z ns) imgs cols =
        .ok (imgs ++ cols.filterMap (fun co =>
          match co with
          | some col =>
              if survivorsFor sl m col = [] then none
              else some (col, drawsFor ns (survivorsFor sl m col))
          | none => none)) := by
  intro cols
  induction cols with
  | nil =>
      intro _ imgs
      simp [foldEx]
  | cons co cols ih =>
      intro hsome imgs
      obtain ⟨col, rfl⟩ := hsome co (by simp)
      have hstep := colorStep_ok doc z sl m tf ns h1 h2 h3 h4 h5 h6 hn imgs col
      simp only [foldEx, hstep, okBind,
        ih (fun co hc => hsome co (by simp [hc])), List.filterMap_cons]
      by_cases hs : survivorsFor sl m col = []
      · simp [hs]
      · simp [hs]

theorem plotContours_ok (doc : JSERDoc) (z : ℤ) (sl : SliceRec) (m : ℚ)
    (tf : List ℚ) (ns : List String) (h1 : doc.getSlice z = .ok sl)
    (h2 : ∀ p ∈ flattenSlice sl, p.2.x.zip p.2.y ≠ [])
    (h3 : sl.mag = some m) (h4 : m ≠ 0) (h5 : sl.tformsDefault = some tf)
    (h6 : tf.length = 6) (hn : ∀ p ∈ flattenSlice sl, p.1 ∈ ns) :
    plotContours doc z ns = .ok (masksFor sl m ns) := by
  unfold plotContours
  rw [uniqueColors_ok doc z sl h1 h2, okBind]
  have hsome : ∀ co ∈ firstDedup ((rawsOf sl).map Contour.color),
      ∃ col, co = some col := by
    intro co hco
    have hmem := firstDedup_sub _ co hco
    obtain ⟨c, hc, rfl⟩ := List.mem_map.mp hmem
    exact rawsOf_color_some sl c hc
  rw [foldEx_colorSteps doc z sl m tf ns h1 h2 h3 h4 h5 h6 hn _ hsome []]
  rfl

theorem masksFor_mem (sl : SliceRec) (m : ℚ) (ns : List String)
    (col : List ℚ) (img : List DrawCall) :
    (col, img) ∈ masksFor sl m ns ↔
      (some col ∈ firstDedup ((rawsOf sl).map Contour.color) ∧
        survivorsFor sl m col ≠ [] ∧
        img = drawsFor ns (survivorsFor sl m col)) := by
  unfold masksFor
  rw [List.mem_filterMap]
  constructor
  · rintro ⟨co, hco, hf⟩
    cases co with
    | none => simp at hf
    | some col2 =>
        dsimp only at hf
        by_cases hs : survivorsFor sl m col2 = []
        · rw [if_pos hs] at hf
          simp at hf
        · rw [if_neg hs] at hf
          have hp := Option.some.inj hf
          have hcol : col2 = col := congrArg Prod.fst hp
          subst hcol
          exact ⟨hco, hs, (congrArg Prod.snd hp).symm⟩
  · rintro ⟨hmem, hs, rfl⟩
    refine ⟨some col, hmem, ?_⟩
    dsimp only
    rw [if_neg hs]

theorem pyIntQ_intCast (i : ℤ) : pyIntQ (i : ℚ) = (i : ℚ) := by
  unfold pyIntQ truncQ
  by_cases h : (i : ℚ) < 0
  · rw [if_pos h, Int.ceil_intCast]
  · rw [if_neg h, Int.floor_intCast]

theorem pyIntL_intCast (zl : List ℤ) :
    pyIntL (zl.map (fun (i : ℤ) => (i : ℚ))) = zl.map (fun (i : ℤ) => (i : ℚ)) := by
  unfold pyIntL
  rw [List.map_map]
  simp only [Function.comp_def, pyIntQ_intCast]

theorem colorKeep_single_int (zl : List ℤ) (c : Contour) :
    colorKeep [zl.map (fun (i : ℤ) => (i : ℚ))] c =
      decide (c.color = some (zl.map (fun (i : ℤ) => (i : ℚ)))) := by
  unfold colorKeep
  cases hc : c.color with
  | none => simp
  | some l =>
      dsimp only
      rw [show List.map pyIntL [zl.map (fun (i : ℤ) => (i : ℚ))] =
        [zl.map (fun (i : ℤ) => (i : ℚ))] from by
          simp only [List.map_cons, List.map_nil, pyIntL_intCast]]
      by_cases hl : l = zl.map (fun (i : ℤ) => (i : ℚ))
      · simp [hl]
      · simp [hl]

/-! ### Lemmas about the name catalog -/

theorem strLeList_total : ∀ as bs : List Char,
    strLeList as bs = true ∨ strLeList bs as = true
  | [], _ => Or.inl rfl
  | _ :: _, [] => Or.inr rfl
  | a :: as, b :: bs => by
      rcases Nat.lt_trichotomy a.toNat b.toNat with h | h | h
      · left
        unfold strLeList
        rw [if_pos h]
      · rcases strLeList_total as bs with ih | ih
        · left
          unfold strLeList
          rw [if_neg (by omega), if_neg (by omega)]
          exact ih
        · right
          unfold strLeList
          rw [if_neg (by omega), if_neg (by omega)]
          exact ih
      · right
        unfold strLeList
        rw [if_pos h]

theorem strLeList_trans : ∀ as bs cs : List Char,
    strLeList as bs = true → strLeList bs cs = true →
    strLeList as cs = true
  | [], _, _ => fun _ _ => rfl
  | _ :: _, [], _ => fun h1 _ => by simp [strLeList] at h1
  | _ :: _, _ :: _, [] => fun _ h2 => by simp [strLeList] at h2
  | a :: as, b :: bs, c :: cs => fun h1 h2 => by
      unfold strLeList at h1 h2 ⊢
      by_cases hab : a.toNat < b.toNat
      · by_cases hbc : b.toNat < c.toNat
        · rw [if_pos (by omega)]
        · rw [if_neg hbc] at h2
          by_cases hcb : c.toNat < b.toNat
          · rw [if_pos hcb] at h2
            exact absurd h2 (by simp)
          · rw [if_pos (by omega)]
      · rw [if_neg hab] at h1
        by_cases hba : b.toNat < a.toNat
        · rw [if_pos hba] at h1
          exact absurd h1 (by simp)
        · rw [if_neg hba] at h1
          by_cases hbc : b.toNat < c.toNat
          · rw [if_pos (by omega)]
          · rw [if_neg hbc] at h2
            by_cases hcb : c.toNat < b.toNat
            · rw [if_pos hcb] at h2
              exact absurd h2 (by simp)
            · rw [if_neg hcb] at h2
              rw [if_neg (by omega), if_neg (by omega)]
              exact strLeList_trans as bs cs h1 h2

theorem strLeList_antisymm : ∀ as bs : List Char,
    strLeList as bs = true → strLeList bs as = true → as = bs
  | [], [] => fun _ _ => rfl
  | [], _ :: _ => fun _ h2 => by simp [strLeList] at h2
  | _ :: _, [] => fun h1 _ => by simp [strLeList] at h1
  | a :: as, b :: bs => fun h1 h2 => by
      unfold strLeList at h1 h2
      by_cases hab : a.toNat < b.toNat
      · rw [if_neg (by omega), if_pos hab] at h2
        exact absurd h2 (by simp)
      · by_cases hba : b.toNat < a.toNat
        · rw [if_neg hab, if_pos hba] at h1
          exact absurd h1 (by simp)
        · rw [if_neg hab, if_neg hba] at h1
          rw [if_neg hba, if_neg hab] at h2
          have heq : as = bs := strLeList_antisymm as bs h1 h2
          have hch : a = b := by
            have hv : a.toNat = b.toNat := by omega
            exact Char.ext (UInt32.ext hv)
          rw [heq, hch]

theorem str_data_ext (a b : String) (h : a.data = b.data) : a = b := by
  cases a
  cases b
  cases h
  rfl

instance pyStrLeTotal : IsTotal String (fun a b => pyStrLe b a = true) :=
  ⟨fun a b => strLeList_total b.data a.data⟩

instance pyStrLeTrans : IsTrans String (fun a b => pyStrLe b a = true) :=
  ⟨fun _ b _ h1 h2 => strLeList_trans _ b.data _ h2 h1⟩

instance pyStrLeAntisymm : IsAntisymm String (fun a b => pyStrLe b a = true) :=
  ⟨fun a b h1 h2 => str_data_ext a b (strLeList_antisymm a.data b.data h2 h1)⟩

theorem sortDesc_perm_eq (l1 l2 : List String) (h : l1.Perm l2) :
    sortDesc l1 = sortDesc l2 := by
  unfold sortDesc
  refine List.eq_of_perm_of_sorted
    (((List.perm_insertionSort _ l1).trans h).trans
      (List.perm_insertionSort _ l2).symm)
    (List.sorted_insertionSort _ l1) (List.sorted_insertionSort _ l2)

theorem mem_foldl_dedup_mono {α : Type} [DecidableEq α] :
    ∀ (l acc : List α) (x : α), x ∈ acc →
      x ∈ l.foldl (fun acc a => if a ∈ acc then acc else acc ++ [a]) acc := by
  intro l
  induction l with
  | nil => intro acc x hx; exact hx
  | cons a l ih =>
      intro acc x hx
      refine ih _ x ?_
      dsimp only
      by_cases hmem : a ∈ acc
      · rw [if_pos hmem]
        exact hx
      · rw [if_neg hmem]
        exact List.mem_append_left _ hx

theorem mem_firstDedup {α : Type} [DecidableEq α] (l : List α) (x : α) :
    x ∈ firstDedup l ↔ x ∈ l := by
  constructor
  · exact firstDedup_sub l x
  · unfold firstDedup
    have key : ∀ (l acc : List α), x ∈ l →
        x ∈ l.foldl (fun acc a => if a ∈ acc then acc else acc ++ [a]) acc := by
      intro l
      induction l with
      | nil => intro acc hx; simp at hx
      | cons a l ih =>
          intro acc hx
          rcases List.mem_cons.mp hx with rfl | hx
          · refine mem_foldl_dedup_mono l _ x ?_
            dsimp only
            by_cases hmem : x ∈ acc
            · rw [if_pos hmem]
              exact hmem
            · rw [if_neg hmem]
              exact List.mem_append_right _ (by simp)
          · exact ih _ hx
    exact key l []

theorem firstDedup_nodup {α : Type} [DecidableEq α] (l : List α) :
    (firstDedup l).Nodup := by
  unfold firstDedup
  have key : ∀ (l acc : List α), acc.Nodup →
      (l.foldl (fun acc a => if a ∈ acc then acc else acc ++ [a]) acc).Nodup := by
    intro l
    induction l with
    | nil => intro acc h; exact h
    | cons a l ih =>
        intro acc h
        refine ih _ ?_
        dsimp only
        by_cases hmem : a ∈ acc
        · rw [if_pos hmem]
          exact h
        · rw [if_neg hmem]
          simp [List.nodup_append, h, hmem]

  exact key l [] List.nodup_nil

theorem mapEx_reqStr_ok (l : List (Option String))
    (h : ∀ o ∈ l, o ≠ none) :
    mapEx reqStr l = .ok (l.map (fun o => o.getD "")) := by
  refine mapEx_ok reqStr _ l (fun o ho => ?_)
  cases o with
  | none => exact absurd rfl (h none ho)
  | some s => rfl

theorem mapEx_reqStr_none (l : List (Option String)) (h : none ∈ l) :
    mapEx reqStr l = .error .typeError := by
  induction l with
  | nil => simp at h
  | cons a l ih =>
      cases a with
      | none => exact mapEx_cons_err reqStr none l _ rfl
      | some s =>
          have hl : none ∈ l := by
            rcases List.mem_cons.mp h with h' | h'
            · exact absurd h'.symm (by simp)
            · exact h'
          simp only [mapEx, ih hl]
          rfl

theorem catalog_perm (d1 d2 : JSERDoc) (ns1 ns2 : List (Option String))
    (hc1 : countNames d1 = .ok ns1) (hc2 : countNames d2 = .ok ns2)
    (hmem : ∀ s, s ∈ ns1 ↔ s ∈ ns2) : catalogOf d1 = catalogOf d2 := by
  unfold catalogOf
  rw [hc1, hc2, okBind, okBind]
  by_cases hnone : none ∈ ns1
  · have hnone2 : none ∈ ns2 := (hmem none).mp hnone
    rw [mapEx_reqStr_none _ ((mem_firstDedup ns1 none).mpr hnone),
      mapEx_reqStr_none _ ((mem_firstDedup ns2 none).mpr hnone2)]
  · have hnone2 : none ∉ ns2 := fun h => hnone ((hmem none).mpr h)
    rw [mapEx_reqStr_ok _ (fun o ho heq =>
        hnone (heq ▸ (mem_firstDedup ns1 o).mp ho)),
      mapEx_reqStr_ok _ (fun o ho heq =>
        hnone2 (heq ▸ (mem_firstDedup ns2 o).mp ho)),
      okBind, okBind]
    have hperm : (firstDedup ns1).Perm (firstDedup ns2) := by
      rw [List.perm_ext_iff_of_nodup (firstDedup_nodup ns1)
        (firstDedup_nodup ns2)]
      intro a
      rw [mem_firstDedup, mem_firstDedup]
      exact hmem a
    exact congrArg Except.ok (sortDesc_perm_eq _ _ (hperm.map _))

/-! ### Claim theorems: the ingester -/

/-- C4: when slice `z` is present with well-formed raw contours, a nonzero
`mag` and 6 transform coefficients, `contours(z, filter_by_colors)` returns
exactly the slice's raw contours that survive the color filter (the
contour's stored color compared against the int-cast of each provided
color), each passed through `with_mag(1/mag)` and then
`with_tforms(tforms)` — which is the explicit value `calibScale` — and an
empty list without error when nothing matches. -/
theorem C4_contours_calibrated_filtered (doc : JSERDoc) (z : ℤ)
    (sl : SliceRec) (m : ℚ) (tf : List ℚ) (h1 : doc.getSlice z = .ok sl)
    (h2 : ∀ p ∈ flattenSlice sl, p.2.x.zip p.2.y ≠ [])
    (h3 : sl.mag = some m) (h4 : m ≠ 0) (h5 : sl.tformsDefault = some tf)
    (h6 : tf.length = 6) (filt : List (List ℚ)) :
    contours doc z (some filt) =
      .ok (((rawsOf sl).filter (colorKeep filt)).map (calibScale m)) ∧
    contours doc z none = .ok ((rawsOf sl).map (calibScale m)) ∧
    (∀ c ∈ (rawsOf sl).filter (colorKeep filt),
      (c.withMag (1 / m) >>= fun c1 => c1.withTforms tf) =
        .ok (calibScale m c)) ∧
    ((rawsOf sl).filter (colorKeep filt) = [] →
      contours doc z (some filt) = .ok []) := by
  refine ⟨contours_some_spec doc z sl m tf h1 h2 h3 h4 h5 h6 filt,
    contours_none_spec doc z sl m tf h1 h2 h3 h4 h5 h6,
    fun c hc => calib_body_ok c m tf
      (rawsOf_points_ne sl h2 c (List.mem_of_mem_filter hc)) h6,
    fun hemp => ?_⟩
  rw [contours_some_spec doc z sl m tf h1 h2 h3 h4 h5 h6 filt, hemp]
  rfl

/-- C4, witnessed on `docA` (one triangle named `"A"`, color `[1,0,0]`,
`mag = 2`): the matching filter returns the calibrated triangle, a
non-matching filter returns `[]` without error. -/
theorem C4_witness :
    contours docA 0 (some [[1, 0, 0]]) =
      .ok (((rawsOf ⟨[("A", [rcTri])], some 2, some id6⟩).filter
        (colorKeep [[1, 0, 0]])).map (calibScale 2)) ∧
    contours docA 0 (some [[7, 7, 7]]) = .ok [] :=
  ⟨(C4_contours_calibrated_filtered docA 0 ⟨[("A", [rcTri])], some 2, some id6⟩
      2 id6 (by decide) (by decide) rfl (by decide) rfl (by decide)
      [[1, 0, 0]]).1,
   (C4_contours_calibrated_filtered docA 0 ⟨[("A", [rcTri])], some 2, some id6⟩
      2 id6 (by decide) (by decide) rfl (by decide) rfl (by decide)
      [[7, 7, 7]]).2.2.2 (by decide)⟩

/-- C5 counterexample: slice 0 of `docC5` is present and lacks *both*
calibration fields, yet `contours(0)` returns `[]` without raising — the
calibration lookups sit inside the list comprehension body, which never
runs because the slice has no contours. -/
theorem C5_counterexample_empty_slice :
    (docC5.getSlice 0).isOk = true ∧
    (docC5.getSlice 0 >>= fun sl => .ok sl.mag) = .ok none ∧
    contours docC5 0 none = .ok [] := by decide

/-- C5 (amended): for a present slice with well-formed raw contours and *at
least one* contour, a missing `mag` raises the `KeyError` the spec calls
`IngestError` (no identity fallback, nothing returned), and with `mag`
present and nonzero a missing `tforms.default` likewise raises; a slice
with an empty contour list instead returns `[]` without consulting the
calibration fields (`C5_counterexample_empty_slice`). -/
theorem C5_amended_missing_calibration (doc : JSERDoc) (z : ℤ)
    (sl : SliceRec) (h1 : doc.getSlice z = .ok sl)
    (h2 : ∀ p ∈ flattenSlice sl, p.2.x.zip p.2.y ≠ [])
    (hne : flattenSlice sl ≠ []) :
    (sl.mag = none →
      contours doc z none = .error (Err.missingField "mag")) ∧
    (∀ m, sl.mag = some m → m ≠ 0 → sl.tformsDefault = none →
      contours doc z none = .error (Err.missingField "tforms.default")) := by
  have hkeep : keepByFilt (Option.map (List.map pyIntL) none) =
      fun _ : Contour => true := rfl
  constructor
  · intro hmag
    unfold contours
    rw [getRaw_ok doc z sl h1 h2, okBind, hkeep, List.filter_true]
    cases he : rawsOf sl with
    | nil =>
        exact absurd (List.map_eq_nil_iff.mp he) hne
    | cons a rest =>
        exact mapEx_cons_err _ a rest _ (calibBody_err_mag doc z sl h1 hmag a)
  · intro m hmag hm0 htf
    unfold contours
    rw [getRaw_ok doc z sl h1 h2, okBind, hkeep, List.filter_true]
    cases he : rawsOf sl with
    | nil =>
        exact absurd (List.map_eq_nil_iff.mp he) hne
    | cons a rest =>
        refine mapEx_cons_err _ a rest _
          (calibBody_err_tf doc z sl m h1 hmag hm0 htf a ?_)
        exact rawsOf_points_ne sl h2 a (he ▸ List.mem_cons_self a rest)

/-- C5 amended, witnessed: `docC5b` (contour present, `mag` missing) and
`docC5c` (contour and `mag` present, `tforms.default` missing) both raise
the missing-field error from `contours`. -/
theorem C5_witness :
    contours docC5b 0 none = .error (Err.missingField "mag") ∧
    contours docC5c 0 none = .error (Err.missingField "tforms.default") :=
  ⟨(C5_amended_missing_calibration docC5b 0 ⟨[("A", [rcTri])], none, some id6⟩
      (by decide) (by decide) (by decide)).1 rfl,
   (C5_amended_missing_calibration docC5c 0 ⟨[("A", [rcTri])], some 2, none⟩
      (by decide) (by decide) (by decide)).2 2 rfl (by decide) rfl⟩

/-! ### Claim theorems: the rasterizer -/

/-- C7 counterexample: on `docC7` the single color group holds one 2-point
contour — zero qualifying contours under the claim's definition (≥ 3 points
and non-`"loc"` name) — yet a mask *is* produced for `[1,0,0]` (with an
empty draw list, i.e. an all-zero image): the group-emptiness `continue`
runs after the name filter but before the degeneracy check, so the claim's
"no mask at all" direction is false. -/
theorem C7_counterexample_degenerate_mask :
    (rawsOf ⟨[("A", [rcSeg])], some 1, some id6⟩).map
      (fun c => c.points.length) = [2] ∧
    plotContours docC7 0 ["A"] = .ok [([1, 0, 0], [])] := by decide

/-- C7 (amended): a mask is produced for color `col` iff `col` occurs among
the slice's raw colors and at least one contour of its group survives the
name filter alone — point count does not matter for mask existence.  Each
produced mask's draw calls come exactly from its group's non-degenerate
survivors (≥ 3 points), so degenerate contours are skipped without error
and contribute no fill call; a group whose survivors are all degenerate
yields a mask with no fill calls (an all-zero image), not no mask.  For
integer-component colors the group filter is plain color equality. -/
theorem C7_amended_mask_presence (doc : JSERDoc) (z : ℤ) (sl : SliceRec)
    (m : ℚ) (tf : List ℚ) (ns : List String)
    (h1 : doc.getSlice z = .ok sl)
    (h2 : ∀ p ∈ flattenSlice sl, p.2.x.zip p.2.y ≠ [])
    (h3 : sl.mag = some m) (h4 : m ≠ 0) (h5 : sl.tformsDefault = some tf)
    (h6 : tf.length = 6) (hn : ∀ p ∈ flattenSlice sl, p.1 ∈ ns) :
    plotContours doc z ns = .ok (masksFor sl m ns) ∧
    (∀ col : List ℚ, (∃ img, (col, img) ∈ masksFor sl m ns) ↔
      (some col ∈ firstDedup ((rawsOf sl).map Contour.color) ∧
        survivorsFor sl m col ≠ [])) ∧
    (∀ ci ∈ masksFor sl m ns,
      ci.2 = drawsFor ns (survivorsFor sl m ci.1)) ∧
    (∀ ci ∈ masksFor sl m ns, ∀ d ∈ ci.2,
      ∃ c ∈ survivorsFor sl m ci.1, 3 ≤ c.points.length ∧ d = mkDraw ns c) ∧
    (∀ zl : List ℤ,
      (rawsOf sl).filter (colorKeep [zl.map (fun (i : ℤ) => (i : ℚ))]) =
        (rawsOf sl).filter
          (fun c => decide (c.color = some (zl.map (fun (i : ℤ) => (i : ℚ)))))) := by
  have hmem : ∀ ci ∈ masksFor sl m ns,
      ci.2 = drawsFor ns (survivorsFor sl m ci.1) := by
    intro ci hci
    obtain ⟨col, img⟩ := ci
    exact ((masksFor_mem sl m ns col img).mp hci).2.2
  refine ⟨plotContours_ok doc z sl m tf ns h1 h2 h3 h4 h5 h6 hn, ?_, hmem,
    ?_, ?_⟩
  · intro col
    constructor
    · rintro ⟨img, himg⟩
      have h := (masksFor_mem sl m ns col img).mp himg
      exact ⟨h.1, h.2.1⟩
    · rintro ⟨hc, hs⟩
      exact ⟨_, (masksFor_mem sl m ns col _).mpr ⟨hc, hs, rfl⟩⟩
  · intro ci hci d hd
    rw [hmem ci hci] at hd
    unfold drawsFor at hd
    obtain ⟨c, hcf, rfl⟩ := List.mem_map.mp hd
    have h3le : 3 ≤ c.points.length := by
      simpa using (List.mem_filter.mp hcf).2
    exact ⟨c, List.mem_of_mem_filter hcf, h3le, rfl⟩
  · intro zl
    exact List.filter_congr (fun c _ => colorKeep_single_int zl c)

/-- C7 amended, witnessed on `docB` (a triangle `"A"` and a location marker
`"Loc1"`, both color `[1,0,0]`). -/
theorem C7_amended_witness :
    plotContours docB 0 ["Loc1", "A"] =
      .ok (masksFor ⟨[("A", [rcTri]), ("Loc1", [rcTri])], some 1, some id6⟩
        1 ["Loc1", "A"]) ∧
    ((∃ img, (([1, 0, 0] : List ℚ), img) ∈
        masksFor ⟨[("A", [rcTri]), ("Loc1", [rcTri])], some 1, some id6⟩
          1 ["Loc1", "A"]) ↔
      (some [1, 0, 0] ∈ firstDedup ((rawsOf
          ⟨[("A", [rcTri]), ("Loc1", [rcTri])], some 1, some id6⟩).map
            Contour.color) ∧
        survivorsFor ⟨[("A", [rcTri]), ("Loc1", [rcTri])], some 1, some id6⟩
          1 [1, 0, 0] ≠ [])) :=
  ⟨(C7_amended_mask_presence docB 0
      ⟨[("A", [rcTri]), ("Loc1", [rcTri])], some 1, some id6⟩ 1 id6
      ["Loc1", "A"] (by decide) (by decide) rfl (by decide) rfl (by decide)
      (by decide)).1,
   (C7_amended_mask_presence docB 0
      ⟨[("A", [rcTri]), ("Loc1", [rcTri])], some 1, some id6⟩ 1 id6
      ["Loc1", "A"] (by decide) (by decide) rfl (by decide) rfl (by decide)
      (by decide)).2.1 [1, 0, 0]⟩

/-- C10: every fill call of every produced mask comes from a contour whose
name does not contain `"loc"` case-insensitively (and its label is that
name's index in the catalog); yet a `"Loc1"`-named contour is still counted
by `count_names()` — on `docLoc` it is counted once while rasterization
produces no mask at all. -/
theorem C10_loc_excluded_but_counted :
    (∀ (doc : JSERDoc) (z : ℤ) (sl : SliceRec) (m : ℚ) (tf : List ℚ)
      (ns : List String) (masks : List (List ℚ × List DrawCall)),
      doc.getSlice z = .ok sl →
      (∀ p ∈ flattenSlice sl, p.2.x.zip p.2.y ≠ []) →
      sl.mag = some m → m ≠ 0 → sl.tformsDefault = some tf →
      tf.length = 6 → (∀ p ∈ flattenSlice sl, p.1 ∈ ns) →
      plotContours doc z ns = .ok masks →
      ∀ ci ∈ masks, ∀ d ∈ ci.2, ∃ c0 ∈ rawsOf sl, ∃ nm,
        c0.name = some nm ∧ containsLoc nm = false ∧
        d.label = ns.indexOf nm) ∧
    (∃ ns0, countNames docLoc = .ok ns0 ∧ ns0.count (some "Loc1") = 1) ∧
    plotContours docLoc 0 ["Loc1"] = .ok [] := by
  refine ⟨?_, ⟨[some "Loc1"], by decide, by decide⟩, by decide⟩
  intro doc z sl m tf ns masks h1 h2 h3 h4 h5 h6 hn hplot ci hci d hd
  have hok := plotContours_ok doc z sl m tf ns h1 h2 h3 h4 h5 h6 hn
  rw [hplot] at hok
  have hmasks : masks = masksFor sl m ns := Except.ok.inj hok
  subst hmasks
  obtain ⟨col, img⟩ := ci
  have himg := ((masksFor_mem sl m ns col img).mp hci).2.2
  rw [himg] at hd
  unfold drawsFor at hd
  obtain ⟨c, hcf, rfl⟩ := List.mem_map.mp hd
  obtain ⟨c0, hc0, hcal, hnl⟩ :=
    mem_survivorsFor sl m col c (List.mem_of_mem_filter hcf)
  refine ⟨c0, hc0, nameD c0, rawsOf_name_some sl c0 hc0, ?_, ?_⟩
  · have hname : c.name = some (nameD c0) := by
      rw [hcal, calibScale_name]
      exact rawsOf_name_some sl c0 hc0
    unfold notLoc at hnl
    rw [hname] at hnl
    simpa using hnl
  · show (mkDraw ns c).label = ns.indexOf (nameD c0)
    unfold mkDraw
    have : nameD c = nameD c0 := by
      unfold nameD
      rw [hcal, calibScale_name]
    rw [this]

/-- C8: the catalog depends only on the *set* of names scanned by
`count_names()` — two documents whose scans see the same names (in any
order, any multiplicity) get identical catalogs — and on `docBAC`
(structures arriving as `"B"`, `"A"`, `"C"`) the catalog is the descending
lexicographic list `["C", "B", "A"]`, so the 0-based labels looked up by
the rasterizer are `A → 2`, `B → 1`, `C → 0`. -/
theorem C8_catalog_descending_stable :
    (∀ (d1 d2 : JSERDoc) (ns1 ns2 : List (Option String)),
      countNames d1 = .ok ns1 → countNames d2 = .ok ns2 →
      (∀ s, s ∈ ns1 ↔ s ∈ ns2) → catalogOf d1 = catalogOf d2) ∧
    catalogOf docBAC = .ok ["C", "B", "A"] ∧
    pyIndex ["C", "B", "A"] "A" = .ok 2 ∧
    pyIndex ["C", "B", "A"] "B" = .ok 1 ∧
    pyIndex ["C", "B", "A"] "C" = .ok 0 :=
  ⟨catalog_perm, by decide, by decide, by decide, by decide⟩

/-- C8, witnessed: `docBAC` and `docCAB` scan the same name set in
different arrival orders and get the same catalog. -/
theorem C8_witness : catalogOf docBAC = catalogOf docCAB :=
  C8_catalog_descending_stable.1 docBAC docCAB
    [some "B", some "A", some "C"] [some "C", some "A", some "B"]
    (by decide) (by decide)
    (by
      intro s
      constructor <;> intro h <;> simp at h ⊢ <;> tauto)

/-- C10, witnessed on `docB`: the one fill call of the one produced mask
comes from the non-`"loc"` contour `"A"` (label 1). -/
theorem C10_witness :
    ∃ c0 ∈ rawsOf ⟨[("A", [rcTri]), ("Loc1", [rcTri])], some 1, some id6⟩,
      ∃ nm, c0.name = some nm ∧ containsLoc nm = false ∧
        (⟨1, [(0, 0), (5, 0), (0, 5)]⟩ : DrawCall).label =
          ["Loc1", "A"].indexOf nm :=
  C10_loc_excluded_but_counted.1 docB 0
    ⟨[("A", [rcTri]), ("Loc1", [rcTri])], some 1, some id6⟩ 1 id6
    ["Loc1", "A"] [([1, 0, 0], [⟨1, [(0, 0), (5, 0), (0, 5)]⟩])]
    (by decide) (by decide) rfl (by decide) rfl (by decide) (by decide)
    (by decide) ([1, 0, 0], [⟨1, [(0, 0), (5, 0), (0, 5)]⟩]) (by decide)
    ⟨1, [(0, 0), (5, 0), (0, 5)]⟩ (by decide)

end R2S
